import Mathlib

/-!
Verification development for the Discourse archive crawler
(`_scripts/discourse_archive_script.py`).

Python strings are modelled as `List Char`, timestamps
(`datetime.datetime`, compared via `fromisoformat`) as `Int` epoch values,
post and topic identifiers as `Int` (the cursor arithmetic in `main` drives
them negative).  Loops whose termination depends on the remote endpoint are
given explicit fuel; a result of `none` means the loop did not finish within
the given fuel (or, for the page-2 loop, at all).
-/

/-- One decimal digit rendered as a character, as Python `str` renders it. -/
def digitChar : Nat → Char
  | 0 => '0' | 1 => '1' | 2 => '2' | 3 => '3' | 4 => '4'
  | 5 => '5' | 6 => '6' | 7 => '7' | 8 => '8' | 9 => '9'
  | _ => '*'

/-- Decimal rendering of a natural number, fuel-driven so that it reduces
definitionally.  `natCharsAux fuel n` is correct whenever `n < fuel`. -/
def natCharsAux : Nat → Nat → List Char
  | 0, _ => []
  | fuel + 1, n =>
    if n < 10 then [digitChar n]
    else natCharsAux fuel (n / 10) ++ [digitChar (n % 10)]

/-- Python `str(n)` for a natural number. -/
def natChars (n : Nat) : List Char := natCharsAux (n + 1) n

/-- Python `str(i)` for an integer (a leading minus sign when negative). -/
def intChars (i : Int) : List Char :=
  if i < 0 then '-' :: natChars (-i).toNat else natChars i.toNat

/-- Python `int(s)` on a string of decimal digits (leading zeros allowed). -/
def natOfDigits (ds : List Char) : Nat :=
  ds.foldl (fun a c => a * 10 + (c.toNat - 48)) 0

/-- Python `str.zfill(w)`: left-pad with zeros to width `w`, keeping a
leading sign in front of the padding. -/
def pyZfill (w : Nat) (s : List Char) : List Char :=
  if s.head? = some '-' ∨ s.head? = some '+' then
    s.take 1 ++ List.replicate (w - s.length) '0' ++ s.drop 1
  else
    List.replicate (w - s.length) '0' ++ s

/-- The string contains no dot character. -/
def noDot (l : List Char) : Prop := ∀ c, c ∈ l → c ≠ '.'

/-- The file name produced by `Post.save` (lines 102-122): zero-padded id,
username truncated to 10, topic slug truncated to 50, `.json` extension,
then a final clamp to 100 characters. -/
def postFileName (id : Int) (username topicSlug : List Char) : List Char :=
  let idstr := pyZfill 10 (intChars id)
  let filename :=
    idstr ++ '-' :: username.take 10 ++ '-' :: topicSlug.take 50
      ++ ['.', 'j', 's', 'o', 'n']
  if filename.length > 100 then
    filename.take (100 - 5) ++ ['.', 'j', 's', 'o', 'n']
  else filename

/-- The file name produced by `Topic.save_rendered` (lines 150-164):
`{date}-{slug[:50]}-id{str(id).zfill(10)}.md`, with a final clamp to 150
characters. -/
def renderedFileName (dateStr slug : List Char) (id : Int) : List Char :=
  let slugTruncated := slug.take 50
  let idstr := pyZfill 10 (intChars id)
  let filename :=
    dateStr ++ '-' :: slugTruncated ++ '-' :: 'i' :: 'd' :: idstr
      ++ ['.', 'm', 'd']
  if filename.length > 150 then
    filename.take (150 - 3) ++ ['.', 'm', 'd']
  else filename

/-- One attempted match of the regex `-id(\d+)\.md` at the head of the
string: literal `-id`, a maximal non-empty digit run, then literal `.md`
(regex backtracking cannot shorten the run, since a shorter run would be
followed by a digit, not a dot). -/
def matchIdAt (l : List Char) : Option (List Char) :=
  match l with
  | a :: b :: c :: rest =>
    if a = '-' ∧ b = 'i' ∧ c = 'd' then
      let ds := rest.takeWhile (fun ch => ch.isDigit)
      if ds ≠ [] ∧ (rest.dropWhile (fun ch => ch.isDigit)).take 3 = ['.', 'm', 'd']
      then some ds else none
    else none
  | _ => none

/-- Python `re.search(r'-id(\d+)\.md', name)` followed by `group(1)`:
the leftmost position where the pattern matches wins. -/
def searchId : List Char → Option (List Char)
  | [] => none
  | c :: rest =>
    match matchIdAt (c :: rest) with
    | some ds => some ds
    | none => searchId rest

/-- Python `name.endswith('.md')`. -/
def endsWithMD (nm : List Char) : Bool := nm.reverse.take 3 = ['d', 'm', '.']

/-- The id set recovered from the rendered-topics tree by `renderFromJSONs`
(lines 357-366): for each `.md` file whose name matches `-id(\d+)\.md`,
`int` of the first captured digit run. -/
def renderedIds (names : List (List Char)) : List Int :=
  names.filterMap fun nm =>
    if endsWithMD nm then (searchId nm).map (fun ds => (natOfDigits ds : Int))
    else none

/-- A post as delivered by `/posts.json` and consumed by `Post.from_json`:
the fields the crawler reads (`id`, `created_at`, `topic_id`, `topic_slug`,
`topic_title`). -/
structure PostJ where
  id : Int
  created : Int
  topicId : Int
  topicSlug : List Char
  topicTitle : List Char
deriving DecidableEq

/-- The mutable state of `main`'s archiving loop (lines 238-287):
`max_created_at`, `last_id`, the posts saved so far (`post.save` calls, in
order), every post fetched from the listing so far, and `topics_to_get`
(a dict keyed by topic id, insertion ordered). -/
structure ArchSt where
  maxCreated : Option Int
  lastId : Option Int
  saved : List PostJ
  fetched : List PostJ
  topics : List (Int × List Char × List Char)
deriving DecidableEq

/-- `topics_to_get[topic.id] = topic`: replace in place when the key is
present, append otherwise (Python dict semantics). -/
def dictInsert (k : Int) (v : List Char × List Char) :
    List (Int × List Char × List Char) → List (Int × List Char × List Char)
  | [] => [(k, v)]
  | (k', v') :: rest =>
    if k' = k then (k, v) :: rest else (k', v') :: dictInsert k v rest

/-- The per-post cutoff test (line 257): with a checkpoint the resume
cutoff is set and `no_new_posts = last_created_at < last_sync_date`;
without one the flag is never set. -/
def noNewCheck (cutoff : Option Int) (p : PostJ) : Bool :=
  match cutoff with
  | some c => decide (p.created < c)
  | none => false

/-- The effect of the body of the `for json_post in posts` loop on a post
that is not cut off (lines 261-270): save it, set `max_created_at` if still
unset, update `last_id`, record the owning topic. -/
def savePost (p : PostJ) (st : ArchSt) : ArchSt :=
  { st with
    saved := st.saved ++ [p]
    maxCreated := match st.maxCreated with
      | none => some p.created
      | some v => some v
    lastId := some p.id
    topics := dictInsert p.topicId (p.topicSlug, p.topicTitle) st.topics }

/-- The `for json_post in posts` loop (lines 248-270): process posts in
order, breaking as soon as one is older than the cutoff; the returned flag
is `no_new_posts` as observed after the loop. -/
def processPosts (cutoff : Option Int) : List PostJ → ArchSt → ArchSt × Bool
  | [], st => (st, false)
  | p :: rest, st =>
    if noNewCheck cutoff p then (st, true)
    else processPosts cutoff rest (savePost p st)

/-- The empty-page scan loop (lines 282-287): while the page is empty and
`last_id >= 0`, decrement `last_id` by 49 and refetch
`/posts.json?before=last_id`.  `none` means the fuel ran out before the
loop finished. -/
def scanLoop (listing : Option Int → List PostJ) :
    Nat → List PostJ → Int → Option (List PostJ × Int)
  | 0, posts, lastId =>
    if posts = [] ∧ 0 ≤ lastId then none else some (posts, lastId)
  | fuel + 1, posts, lastId =>
    if posts = [] ∧ 0 ≤ lastId then
      scanLoop listing fuel (listing (some (lastId - 49))) (lastId - 49)
    else some (posts, lastId)

/-- `last_id is not None and last_id <= 1` (line 272). -/
def lastIdLE1 : Option Int → Bool
  | none => false
  | some l => decide (l ≤ 1)

/-- The outer `while posts` loop of `main` (lines 246-287).  `listing none`
models `/posts.json`, `listing (some b)` models `/posts.json?before=b`.
`none` means the fuel ran out before the loop finished. -/
def archiveLoop (listing : Option Int → List PostJ) (cutoff : Option Int) :
    Nat → List PostJ → ArchSt → Option ArchSt
  | 0, _, _ => none
  | fuel + 1, posts, st =>
    if posts = [] then some st
    else
      let st1 := { st with fetched := st.fetched ++ posts }
      let pr := processPosts cutoff posts st1
      if pr.2 || lastIdLE1 pr.1.lastId then some pr.1
      else
        match pr.1.lastId with
        | none => none
        | some l =>
          match scanLoop listing fuel (listing (some (l - 1))) l with
          | none => none
          | some (posts', l') =>
            archiveLoop listing cutoff fuel posts' { pr.1 with lastId := some l' }

/-- The archiving phase of `main` (lines 224-292): read the checkpoint,
subtract one day (86400 seconds) to get the resume cutoff, run the listing
walk from the first page of `/posts.json`. -/
def archiveMain (listing : Option Int → List PostJ) (checkpoint : Option Int)
    (fuel : Nat) : Option ArchSt :=
  let cutoff := checkpoint.map (fun c => c - 86400)
  archiveLoop listing cutoff fuel (listing none)
    { maxCreated := none, lastId := none, saved := [], fetched := [], topics := [] }

/-- Lines 289-292: the checkpoint written to `.metadata.json` at the end of
the run; `none` means the file is left unchanged (`max_created_at` was never
set). -/
def writtenCheckpoint (st : ArchSt) : Option Int := st.maxCreated

/-- The rendered-body page loop of `main` (lines 299-306) and of
`renderFromJSONs` (lines 391-398): `page_num` is initialised to 2 and never
changed, so every iteration refetches `?page=2` and appends it after a line
break.  `raw none` models `/raw/{id}`, `raw (some n)` models
`/raw/{id}?page={n}`.  `none` means the loop did not finish within the
fuel. -/
def rawPageLoop (raw : Option Nat → List Char) :
    Nat → List Char → Option (List Char)
  | 0, _ => none
  | fuel + 1, body =>
    if raw (some 2) = [] then some body
    else rawPageLoop raw fuel (body ++ '\n' :: raw (some 2))

/-- Modelled from the spec: the pagination assembly the specification
describes for the Topic Renderer (fetch page 2, 3, ... until a page returns
empty content, concatenating non-empty pages with a separating line break);
the page counter advances after every fetched page, which the source never
does. -/
def assembleBodySpecLoop (raw : Option Nat → List Char) :
    Nat → Nat → List Char → Option (List Char)
  | 0, _, _ => none
  | fuel + 1, page, body =>
    if raw (some page) = [] then some body
    else assembleBodySpecLoop raw fuel (page + 1) (body ++ '\n' :: raw (some page))

/-- The topic metadata the renderer reads from `/t/....json`: the `id` and
`slug` fields used by `Topic.from_json` / `save_rendered`, the `title`, and
`str(created_at.date())`. -/
structure TopicMeta where
  id : Int
  slug : List Char
  title : List Char
  dateStr : List Char
deriving DecidableEq

/-- The rendering loop shared by `main` (lines 296-312) and
`renderFromJSONs` (lines 388-404): for each pending topic, fetch the first
raw page; when it is empty, warn and continue with the rest; otherwise run
the page loop and write the rendered file.  The result is the list of file
names written, `none` when a page loop never terminates (so the run never
completes). -/
def renderTopics (raw : Int → Option Nat → List Char) (meta : Int → TopicMeta)
    (fuel : Nat) : List (Int × List Char) → Option (List (List Char))
  | [] => some []
  | (id, _) :: rest =>
    let body := raw id none
    if body = [] then renderTopics raw meta fuel rest
    else
      match rawPageLoop (raw id) fuel body with
      | none => none
      | some _ =>
        match renderTopics raw meta fuel rest with
        | none => none
        | some files =>
          some (renderedFileName (meta id).dateStr (meta id).slug (meta id).id :: files)

/-- `collect_ids` (lines 315-329): walk the raw post files and collect each
one's `(topic_id, topic_slug)` pair, in file order. -/
def collect_ids (postFiles : List PostJ) : List (Int × List Char) :=
  postFiles.map fun p => (p.topicId, p.topicSlug)

/-- The persisted state and remote endpoints visible to `renderFromJSONs`:
the pairs in the saved `topics_array.npy` snapshot, the raw post files on
disk, the rendered-topic file names on disk, the topic endpoints, and the
checkpoint file. -/
structure ReconEnv where
  npyPairs : List (Int × List Char)
  postFiles : List PostJ
  renderedNames : List (List Char)
  raw : Int → Option Nat → List Char
  meta : Int → TopicMeta
  checkpoint : Option Int

/-- Python `set()` deduplication of the loaded pairs (lines 344-350):
keep one copy of every pair (the set's iteration order is unspecified; this
model keeps the last copy). -/
def dedupPairs : List (Int × List Char) → List (Int × List Char)
  | [] => []
  | p :: rest => if p ∈ rest then dedupPairs rest else p :: dedupPairs rest

/-- The topic selection of `renderFromJSONs` (lines 341-386): deduplicate
the pairs loaded from `topics_array.npy` and drop every pair whose id was
parsed out of an existing rendered file name. -/
def selectTopics (pairs : List (Int × List Char))
    (renderedNames : List (List Char)) : List (Int × List Char) :=
  (dedupPairs pairs).filter fun t => ¬ t.1 ∈ renderedIds renderedNames

/-- `renderFromJSONs` (lines 332-404): select the pending topics from the
npy snapshot and render them; the raw post files and the checkpoint are
never read, and the checkpoint is returned unchanged. -/
def runReconciler (env : ReconEnv) (fuel : Nat) :
    Option (List (List Char) × Option Int) :=
  (renderTopics env.raw env.meta fuel
      (selectTopics env.npyPairs env.renderedNames)).map
    fun files => (files, env.checkpoint)

/-- `http_get` (lines 53-69) against an oracle giving the outcome of each
attempt (`att i = some body`: the i-th request succeeds with `body`;
`none`: it raises).  Returns the slept delays in order together with either
the decoded body or, for `sys.exit(1)`, the final backoff value.  The fuel
8 is enough for every run, since the backoff starts at 3, doubles after
each failure, and the loop exits once it reaches 256. -/
def httpGetAux (att : Nat → Option (List Char)) :
    Nat → Nat → Nat → List Nat → List Nat × Except Nat (List Char)
  | 0, _, _, sleeps => (sleeps.reverse, Except.error 0)
  | fuel + 1, i, backoff, sleeps =>
    match att i with
    | some body => (sleeps.reverse, Except.ok body)
    | none =>
      if backoff * 2 ≥ 256 then
        ((backoff :: sleeps).reverse, Except.error (backoff * 2))
      else httpGetAux att fuel (i + 1) (backoff * 2) (backoff :: sleeps)

/-- `http_get`: backoff starts at 3, first attempt is attempt 0. -/
def http_get (att : Nat → Option (List Char)) : List Nat × Except Nat (List Char) :=
  httpGetAux att 8 0 3 []

/-- The link target built by `Topic.save_rendered` (lines 166-169): the
hard-coded `base_url` (not the configured `--url`/`DISCOURSE_URL` value)
concatenated with `/t/{slug}/{id}`. -/
def topicUrl (slug : List Char) (id : Int) : List Char :=
  "https://discourse.slicer.org/".toList ++ "/t/".toList ++ slug
    ++ '/' :: intChars id

/-- The markdown written by `Topic.save_rendered` (line 172): title
heading, assembled body, one trailing link to the topic URL. -/
def renderedMarkdown (title body slug : List Char) (id : Int) : List Char :=
  '#' :: ' ' :: title ++ '\n' :: '\n' :: body ++ '\n' :: '\n'
    :: "[Link to the original post](".toList ++ topicUrl slug id ++ [')']

/-- Conditions under which a topic's rendered file name parses back to the
topic's id: the topic endpoint reports the id the reconciler queried, the
id fits the 10-digit zero padding, and neither the date string nor the slug
contains a dot (an adversarial slug such as `x-id99.mdz` embeds a spurious
`-id(\d+)\.md` match). -/
def goodMeta (meta : Int → TopicMeta) (id : Int) : Prop :=
  (meta id).id = id ∧ 0 ≤ id ∧ id < 10 ^ 10 ∧
    (meta id).dateStr.length = 10 ∧ noDot (meta id).dateStr ∧ noDot (meta id).slug

/-- A first-page post for the concrete first-run listing. -/
def pW1 : PostJ :=
  { id := 10, created := 2000, topicId := 70,
    topicSlug := "t70".toList, topicTitle := "T70".toList }

/-- A second post, older than `pW1`, for the concrete first-run listing. -/
def pW2 : PostJ :=
  { id := 9, created := 1500, topicId := 71,
    topicSlug := "t71".toList, topicTitle := "T71".toList }

/-- A concrete listing: one first page with two posts in descending
creation order, every cursor page empty. -/
def listingW : Option Int → List PostJ
  | none => [pW1, pW2]
  | some _ => []

/-- The final archiver state on `listingW` with no prior checkpoint. -/
def stW : ArchSt :=
  { maxCreated := some 2000, lastId := some (-40), saved := [pW1, pW2],
    fetched := [pW1, pW2],
    topics := [(70, "t70".toList, "T70".toList), (71, "t71".toList, "T71".toList)] }

/-- A post newer than the resume cutoff but older than the stored
checkpoint 1000000. -/
def pC4 : PostJ :=
  { id := 5, created := 999999, topicId := 80,
    topicSlug := "t80".toList, topicTitle := "T80".toList }

/-- A listing whose newest remaining post predates the stored checkpoint
(the post that produced the checkpoint is gone upstream). -/
def listingC4 : Option Int → List PostJ
  | none => [pC4]
  | some _ => []

/-- The final archiver state on `listingC4` with checkpoint 1000000. -/
def stC4 : ArchSt :=
  { maxCreated := some 999999, lastId := some (-44), saved := [pC4],
    fetched := [pC4], topics := [(80, "t80".toList, "T80".toList)] }

/-- A post sitting in the listing window at cursor 51. -/
def pC5 : PostJ :=
  { id := 51, created := 100, topicId := 90,
    topicSlug := "t90".toList, topicTitle := "T90".toList }

/-- A listing that is empty at cursor 100 but non-empty at cursor 51. -/
def listingC5 : Option Int → List PostJ := fun o =>
  if o = some (51 : Int) then [pC5] else []

/-- A raw-body endpoint with three non-empty pages and an empty fourth
page: page 1 is `A`, page 2 is `B`, page 3 is `C`. -/
def raw3 : Option Nat → List Char
  | none => ['A']
  | some 2 => ['B']
  | some 3 => ['C']
  | some _ => []

/-- An attempt oracle on which every request fails. -/
def attFailW : Nat → Option (List Char) := fun _ => none

/-- An attempt oracle failing twice, then succeeding. -/
def attOkW : Nat → Option (List Char) := fun i =>
  if i = 2 then some "ok".toList else none

/-- Topic metadata endpoint knowing only topic 7. -/
def metaC6 : Int → TopicMeta := fun id =>
  if id = 7 then
    { id := 7, slug := "s".toList, title := "T".toList,
      dateStr := "2024-01-02".toList }
  else { id := 0, slug := [], title := [], dateStr := [] }

/-- Raw-body endpoint: topic 7 has a one-page body `X`. -/
def rawC6 : Int → Option Nat → List Char := fun id p =>
  if id = 7 ∧ p = none then ['X'] else []

/-- A reconciler environment with one pending topic in the npy snapshot. -/
def envC6w : ReconEnv :=
  { npyPairs := [(7, "s".toList)], postFiles := [], renderedNames := [],
    raw := rawC6, meta := metaC6, checkpoint := some 5 }

/-- The files written by the first reconciler run on `envC6w`. -/
def filesC6 : List (List Char) :=
  [renderedFileName "2024-01-02".toList "s".toList 7]

/-- A raw post file referencing topic 7. -/
def pC6 : PostJ :=
  { id := 1, created := 100, topicId := 7,
    topicSlug := "s".toList, topicTitle := "T".toList }

/-- A reconciler environment where the posts directory mentions topic 7 but
the npy snapshot is empty. -/
def envC6x : ReconEnv :=
  { npyPairs := [], postFiles := [pC6], renderedNames := [],
    raw := fun _ _ => [],
    meta := fun _ => { id := 0, slug := [], title := [], dateStr := [] },
    checkpoint := none }

/-- Raw-body endpoint: topic 3 is unrenderable (empty first page), topic 4
has a one-page body. -/
def rawC9 : Int → Option Nat → List Char := fun id p =>
  if id = 4 ∧ p = none then ['B'] else []

/-- Topic metadata endpoint for the skip witness. -/
def metaC9 : Int → TopicMeta := fun _ =>
  { id := 4, slug := "s4".toList, title := "T".toList,
    dateStr := "2024-01-02".toList }

theorem digitChar_isDigit {n : Nat} (h : n < 10) : (digitChar n).isDigit = true := by
  interval_cases n <;> decide

theorem digitChar_val {n : Nat} (h : n < 10) : (digitChar n).toNat - 48 = n := by
  interval_cases n <;> decide

theorem isDigit_ne_dot {c : Char} (h : c.isDigit = true) : c ≠ '.' := by
  intro he; subst he; exact absurd h (by decide)

theorem isDigit_ne_dash {c : Char} (h : c.isDigit = true) : c ≠ '-' := by
  intro he; subst he; exact absurd h (by decide)

theorem isDigit_ne_plus {c : Char} (h : c.isDigit = true) : c ≠ '+' := by
  intro he; subst he; exact absurd h (by decide)

theorem natOfDigits_snoc (xs : List Char) (c : Char) :
    natOfDigits (xs ++ [c]) = natOfDigits xs * 10 + (c.toNat - 48) := by
  simp [natOfDigits, List.foldl_append]

theorem natOfDigits_zeros (k : Nat) (s : List Char) :
    natOfDigits (List.replicate k '0' ++ s) = natOfDigits s := by
  induction k with
  | zero => simp
  | succ n ih =>
    have h0 : ((0 : Nat) * 10 + ('0'.toNat - 48)) = 0 := by decide
    simpa [List.replicate_succ, natOfDigits, h0] using ih

theorem natCharsAux_spec : ∀ fuel n, n < fuel →
    natCharsAux fuel n ≠ [] ∧ (∀ c ∈ natCharsAux fuel n, c.isDigit = true) ∧
      natOfDigits (natCharsAux fuel n) = n ∧
      (∀ k, 1 ≤ k → n < 10 ^ k → (natCharsAux fuel n).length ≤ k) := by
  intro fuel
  induction fuel with
  | zero => intro n h; omega
  | succ f ih =>
    intro n hn
    by_cases h10 : n < 10
    · refine ⟨?_, ?_, ?_, ?_⟩
      · simp [natCharsAux, h10]
      · intro c hc
        simp [natCharsAux, h10] at hc
        subst hc; exact digitChar_isDigit h10
      · have : natOfDigits [digitChar n] = n := by
          have := digitChar_val h10
          simp [natOfDigits]; omega
        simpa [natCharsAux, h10] using this
      · intro k hk1 hk
        simp [natCharsAux, h10]; omega
    · have hdiv : n / 10 < n := Nat.div_lt_self (by omega) (by omega)
      have hf : n / 10 < f := by omega
      obtain ⟨ih1, ih2, ih3, ih4⟩ := ih (n / 10) hf
      have hmod : n % 10 < 10 := Nat.mod_lt _ (by omega)
      refine ⟨?_, ?_, ?_, ?_⟩
      · simp [natCharsAux, h10]
      · intro c hc
        simp only [natCharsAux, if_neg h10, List.mem_append, List.mem_singleton] at hc
        rcases hc with hc | hc
        · exact ih2 c hc
        · subst hc; exact digitChar_isDigit hmod
      · have := digitChar_val hmod
        simp only [natCharsAux, if_neg h10, natOfDigits_snoc, ih3, this]
        omega
      · intro k hk1 hk
        have hk2 : 2 ≤ k := by
          by_contra hcon
          have hke : k = 1 := by omega
          subst hke
          simp at hk
          omega
        have hpow : 10 ^ (k - 1) * 10 = 10 ^ k := by
          rw [← pow_succ]
          congr 1
          omega
        have hlt : n / 10 < 10 ^ (k - 1) := by
          rw [Nat.div_lt_iff_lt_mul (by norm_num)]
          omega
        have := ih4 (k - 1) (by omega) hlt
        simp only [natCharsAux, if_neg h10, List.length_append, List.length_singleton]
        omega

theorem natChars_spec (n : Nat) :
    natChars n ≠ [] ∧ (∀ c ∈ natChars n, c.isDigit = true) ∧
      natOfDigits (natChars n) = n ∧
      (∀ k, 1 ≤ k → n < 10 ^ k → (natChars n).length ≤ k) :=
  natCharsAux_spec (n + 1) n (by omega)

theorem pyZfill_digits (w : Nat) (s : List Char) (h : ∀ c ∈ s, c.isDigit = true) :
    pyZfill w s = List.replicate (w - s.length) '0' ++ s := by
  cases s with
  | nil => simp [pyZfill]
  | cons c t =>
    have hc := h c (by simp)
    have h1 : c ≠ '-' := isDigit_ne_dash hc
    have h2 : c ≠ '+' := isDigit_ne_plus hc
    simp [pyZfill, h1, h2]

theorem pyZfill_all_digits (w : Nat) (s : List Char) (h : ∀ c ∈ s, c.isDigit = true) :
    ∀ c ∈ pyZfill w s, c.isDigit = true := by
  rw [pyZfill_digits w s h]
  intro c hc
  rcases List.mem_append.1 hc with hc | hc
  · have := List.eq_of_mem_replicate hc
    subst this; decide
  · exact h c hc

theorem length_pyZfill (w : Nat) (s : List Char) (h : ∀ c ∈ s, c.isDigit = true) :
    (pyZfill w s).length = max w s.length := by
  rw [pyZfill_digits w s h]
  simp
  omega

theorem natOfDigits_pyZfill (w n : Nat) :
    natOfDigits (pyZfill w (natChars n)) = n := by
  rw [pyZfill_digits w _ (natChars_spec n).2.1, natOfDigits_zeros,
    (natChars_spec n).2.2.1]

theorem intChars_nonneg {i : Int} (h : 0 ≤ i) : intChars i = natChars i.toNat := by
  rw [intChars, if_neg (by omega)]

theorem idstr_spec (id : Int) (h0 : 0 ≤ id) (hlt : id < 10 ^ 10) :
    (pyZfill 10 (intChars id)).length = 10 ∧
      (∀ c ∈ pyZfill 10 (intChars id), c.isDigit = true) ∧
      pyZfill 10 (intChars id) ≠ [] ∧
      (natOfDigits (pyZfill 10 (intChars id)) : Int) = id := by
  have hpow : (10 : Int) ^ 10 = 10000000000 := by norm_num
  have htoNat : id.toNat < 10 ^ 10 := by
    have : (10 : Nat) ^ 10 = 10000000000 := by norm_num
    omega
  rw [intChars_nonneg h0]
  obtain ⟨hne, hdig, hval, hlen⟩ := natChars_spec id.toNat
  refine ⟨?_, pyZfill_all_digits 10 _ hdig, ?_, ?_⟩
  · rw [length_pyZfill 10 _ hdig]
    have := hlen 10 (by norm_num) htoNat
    omega
  · rw [pyZfill_digits 10 _ hdig]
    simp [hne]
  · rw [natOfDigits_pyZfill]
    omega

theorem noDot_take (n : Nat) (l : List Char) (h : noDot l) : noDot (l.take n) :=
  fun c hc => h c (List.take_subset n l hc)

theorem noDot_append {a b : List Char} (ha : noDot a) (hb : noDot b) :
    noDot (a ++ b) := by
  intro c hc
  rcases List.mem_append.1 hc with hc | hc
  · exact ha c hc
  · exact hb c hc

theorem noDot_cons {c : Char} {l : List Char} (hc : c ≠ '.') (hl : noDot l) :
    noDot (c :: l) := by
  intro d hd
  rcases List.mem_cons.1 hd with hd | hd
  · subst hd; exact hc
  · exact hl d hd

theorem noDot_of_cons {c : Char} {l : List Char} (h : noDot (c :: l)) : noDot l :=
  fun d hd => h d (List.mem_cons_of_mem c hd)

theorem takeWhile_digits (ds r : List Char) (h : ∀ c ∈ ds, c.isDigit = true) :
    (ds ++ '.' :: r).takeWhile (fun ch => ch.isDigit) = ds ∧
      (ds ++ '.' :: r).dropWhile (fun ch => ch.isDigit) = '.' :: r := by
  induction ds with
  | nil => simp [List.takeWhile_cons, List.dropWhile_cons]
  | cons c t ih =>
    have hc := h c (by simp)
    have iht := ih fun d hd => h d (List.mem_cons_of_mem c hd)
    simp [List.takeWhile_cons, List.dropWhile_cons, hc, iht.1, iht.2]

theorem matchIdAt_canon (ds rest : List Char) (hne : ds ≠ [])
    (h : ∀ c ∈ ds, c.isDigit = true) :
    matchIdAt ('-' :: 'i' :: 'd' :: (ds ++ '.' :: 'm' :: 'd' :: rest)) = some ds := by
  have htw := takeWhile_digits ds ('m' :: 'd' :: rest) h
  simp [matchIdAt, htw.1, htw.2, hne]

theorem dropWhile_head_ne_dot (r t : List Char) (hr : noDot r) :
    ¬ ((r ++ '-' :: t).dropWhile (fun ch => ch.isDigit)).head? = some '.' := by
  induction r with
  | nil => simp [List.dropWhile_cons]
  | cons c cs ih =>
    by_cases hc : c.isDigit
    · simpa [List.dropWhile_cons, hc] using ih (noDot_of_cons hr)
    · have : c ≠ '.' := hr c (by simp)
      simp [List.dropWhile_cons, hc, this]

theorem matchIdAt_noDot_none (q t : List Char) (hq : noDot q) (hne : q ≠ []) :
    matchIdAt (q ++ '-' :: t) = none := by
  match q with
  | [] => exact absurd rfl hne
  | [a] =>
    cases t with
    | nil => rfl
    | cons c t' => simp [matchIdAt]
  | [a, b] => simp [matchIdAt]
  | a :: b :: c :: q4 =>
    show matchIdAt (a :: b :: c :: (q4 ++ '-' :: t)) = none
    rw [matchIdAt]
    by_cases habc : a = '-' ∧ b = 'i' ∧ c = 'd'
    · rw [if_pos habc]
      have hq4 : noDot q4 := by
        intro d hd
        exact hq d (by simp [hd])
      have hhead := dropWhile_head_ne_dot q4 t hq4
      rw [if_neg]
      rintro ⟨-, htake⟩
      apply hhead
      rcases hdw : (q4 ++ '-' :: t).dropWhile (fun ch => ch.isDigit) with _ | ⟨x, xs⟩
      · rw [hdw] at htake; simp at htake
      · rw [hdw] at htake
        simp [List.take] at htake
        simp [hdw, htake.1]
    · rw [if_neg habc]

theorem searchId_append_canon (p ds rest : List Char) (hp : noDot p)
    (hne : ds ≠ []) (hdig : ∀ c ∈ ds, c.isDigit = true) :
    searchId (p ++ '-' :: 'i' :: 'd' :: (ds ++ '.' :: 'm' :: 'd' :: rest)) = some ds := by
  induction p with
  | nil =>
    simp only [List.nil_append, searchId]
    rw [matchIdAt_canon ds rest hne hdig]
  | cons c cs ih =>
    have hnone :
        matchIdAt ((c :: cs) ++ '-' :: ('i' :: 'd' :: (ds ++ '.' :: 'm' :: 'd' :: rest))) = none :=
      matchIdAt_noDot_none (c :: cs) _ hp (by simp)
    simp only [List.cons_append] at hnone ⊢
    rw [searchId, hnone]
    exact ih (noDot_of_cons hp)

theorem noDot_of_not_mem {l : List Char} (h : '.' ∉ l) : noDot l :=
  fun _ hc he => h (he ▸ hc)

theorem renderedFileName_unclamped (dateStr slug : List Char) (id : Int)
    (hd10 : dateStr.length = 10) (h0 : 0 ≤ id) (hlt : id < 10 ^ 10) :
    renderedFileName dateStr slug id =
      (dateStr ++ '-' :: slug.take 50) ++
        '-' :: 'i' :: 'd' :: (pyZfill 10 (intChars id) ++ '.' :: 'm' :: 'd' :: []) := by
  obtain ⟨hlen, -, -, -⟩ := idstr_spec id h0 hlt
  have hcond : ¬ ((dateStr ++ '-' :: slug.take 50 ++ '-' :: 'i' :: 'd' ::
      pyZfill 10 (intChars id) ++ ['.', 'm', 'd']).length > 150) := by
    simp [List.length_append, List.length_take, hd10, hlen]
    omega
  simp only [renderedFileName]
  rw [if_neg hcond]
  simp [List.append_assoc]

theorem endsWithMD_append (l : List Char) : endsWithMD (l ++ ['.', 'm', 'd']) = true := by
  simp [endsWithMD, List.reverse_append]

theorem parse_renderedFileName (dateStr slug : List Char) (id : Int)
    (hd10 : dateStr.length = 10) (hdnd : noDot dateStr) (hsnd : noDot slug)
    (h0 : 0 ≤ id) (hlt : id < 10 ^ 10) :
    searchId (renderedFileName dateStr slug id) = some (pyZfill 10 (intChars id)) ∧
      endsWithMD (renderedFileName dateStr slug id) = true := by
  obtain ⟨-, hdig, hne, -⟩ := idstr_spec id h0 hlt
  rw [renderedFileName_unclamped dateStr slug id hd10 h0 hlt]
  constructor
  · exact searchId_append_canon _ _ []
      (noDot_append hdnd (noDot_cons (by decide) (noDot_take 50 slug hsnd))) hne hdig
  · have hregroup : (dateStr ++ '-' :: slug.take 50) ++
        '-' :: 'i' :: 'd' :: (pyZfill 10 (intChars id) ++ '.' :: 'm' :: 'd' :: []) =
        ((dateStr ++ '-' :: slug.take 50) ++
          '-' :: 'i' :: 'd' :: pyZfill 10 (intChars id)) ++ ['.', 'm', 'd'] := by
      simp [List.append_assoc]
    rw [hregroup]
    exact endsWithMD_append _

/-- C8: the round-trip claim fails as stated: the slug `x-id99.mdz` makes
the extraction regex match inside the slug, so the parsed id is 99, not the
topic's id 5. -/
theorem C8_counterexample :
    renderedIds [renderedFileName ("2024-01-02".toList) ("x-id99.mdz".toList) 5] = [99] ∧
      (99 : Int) ≠ 5 := by
  constructor
  · decide
  · decide

/-- C8 (amended): for every topic id in the zero-padded range and every
slug and date string free of dots, parsing the rendered file name with the
Reconciler's pattern succeeds and yields exactly the topic's id. -/
theorem C8_roundtrip (dateStr slug : List Char) (id : Int)
    (hd10 : dateStr.length = 10) (hdnd : noDot dateStr) (hsnd : noDot slug)
    (h0 : 0 ≤ id) (hlt : id < 10 ^ 10) :
    renderedIds [renderedFileName dateStr slug id] = [id] := by
  obtain ⟨-, -, -, hval⟩ := idstr_spec id h0 hlt
  obtain ⟨hsearch, hmd⟩ := parse_renderedFileName dateStr slug id hd10 hdnd hsnd h0 hlt
  simp [renderedIds, hmd, hsearch, hval]

/-- C8 witness: a benign slug round-trips. -/
theorem C8_roundtrip_witness :
    renderedIds [renderedFileName ("2024-01-02".toList) ("abc".toList) 7] = [7] :=
  C8_roundtrip _ _ 7 (by decide) (noDot_of_not_mem (by decide))
    (noDot_of_not_mem (by decide)) (by decide) (by decide)

/-- C7: the file names produced by `Post.save` and `Topic.save_rendered`
are pure functions of their inputs, never exceed 100 and 150 characters
respectively, and (for ids in the padded range) start from / embed the
identifier zero-padded to exactly 10 digits. -/
theorem C7_sanitizer (id : Int) (username slug dateStr : List Char) :
    (postFileName id username slug).length ≤ 100 ∧
      (renderedFileName dateStr slug id).length ≤ 150 ∧
      postFileName id username slug = postFileName id username slug ∧
      (0 ≤ id → id < 10 ^ 10 →
        (pyZfill 10 (intChars id)).length = 10 ∧
        (postFileName id username slug).take 10 = pyZfill 10 (intChars id)) := by
  refine ⟨?_, ?_, rfl, ?_⟩
  · simp only [postFileName]
    split
    · simp [List.length_append, List.length_take]
    · rename_i h
      omega
  · simp only [renderedFileName]
    split
    · simp [List.length_append, List.length_take]
    · rename_i h
      omega
  · intro h0 hlt
    obtain ⟨hlen, -, -, -⟩ := idstr_spec id h0 hlt
    refine ⟨hlen, ?_⟩
    simp only [postFileName]
    split
    · rename_i h
      simp [List.length_append, List.length_take, hlen] at h
      omega
    · rw [List.append_assoc, List.append_assoc, List.take_left' hlen]

/-- C7 witness: a concrete id in the padded range. -/
theorem C7_sanitizer_witness :
    (pyZfill 10 (intChars 123)).length = 10 ∧
      (postFileName 123 ("user".toList) ("slug".toList)).take 10 =
        pyZfill 10 (intChars 123) :=
  (C7_sanitizer 123 ("user".toList) ("slug".toList) ("2024-01-02".toList)).2.2.2
    (by decide) (by decide)

/-- C2: the page loop never advances `page_num` past 2, so a topic whose
raw endpoint has a non-empty second page makes the loop run forever (the
code never assembles the three pages); the loop the spec describes, with an
advancing page counter, would assemble them in order with separating line
breaks. -/
theorem C2_page_counter_never_advances :
    (∀ fuel body, rawPageLoop raw3 fuel body = none) ∧
      assembleBodySpecLoop raw3 10 2 ['A'] = some ['A', '\n', 'B', '\n', 'C'] := by
  constructor
  · intro fuel
    induction fuel with
    | zero => intro body; rfl
    | succ n ih =>
      intro body
      have h2 : raw3 (some 2) = ['B'] := rfl
      simp [rawPageLoop, h2, ih]
  · decide

/-- C3: `http_get` sleeps 3 seconds after the first failure and doubles the
delay after every further failure; once the doubled delay reaches 256 (at
384, after seven failed attempts) the process exits with a fatal error, and
a request succeeding within the retry budget returns the decoded body after
the geometric sequence of sleeps. -/
theorem C3_backoff (att : Nat → Option (List Char)) (body : List Char) (k : Nat) :
    ((∀ j, j ≤ 6 → att j = none) →
      http_get att = ([3, 6, 12, 24, 48, 96, 192], Except.error 384) ∧ 256 ≤ 384) ∧
      (k ≤ 6 → (∀ j, j < k → att j = none) → att k = some body →
        http_get att = ((List.range k).map fun j => 3 * 2 ^ j, Except.ok body)) := by
  constructor
  · intro h
    refine ⟨?_, by norm_num⟩
    have h0 := h 0 (by omega)
    have h1 := h 1 (by omega)
    have h2 := h 2 (by omega)
    have h3 := h 3 (by omega)
    have h4 := h 4 (by omega)
    have h5 := h 5 (by omega)
    have h6 := h 6 (by omega)
    simp [http_get, httpGetAux, h0, h1, h2, h3, h4, h5, h6]
  · intro hk hfail hsucc
    interval_cases k
    · simp [http_get, httpGetAux, hsucc]
    · have h0 := hfail 0 (by omega)
      simp [http_get, httpGetAux, h0, hsucc, List.range_succ]
    · have h0 := hfail 0 (by omega)
      have h1 := hfail 1 (by omega)
      simp [http_get, httpGetAux, h0, h1, hsucc, List.range_succ]
    · have h0 := hfail 0 (by omega)
      have h1 := hfail 1 (by omega)
      have h2 := hfail 2 (by omega)
      simp [http_get, httpGetAux, h0, h1, h2, hsucc, List.range_succ]
    · have h0 := hfail 0 (by omega)
      have h1 := hfail 1 (by omega)
      have h2 := hfail 2 (by omega)
      have h3 := hfail 3 (by omega)
      simp [http_get, httpGetAux, h0, h1, h2, h3, hsucc, List.range_succ]
    · have h0 := hfail 0 (by omega)
      have h1 := hfail 1 (by omega)
      have h2 := hfail 2 (by omega)
      have h3 := hfail 3 (by omega)
      have h4 := hfail 4 (by omega)
      simp [http_get, httpGetAux, h0, h1, h2, h3, h4, hsucc, List.range_succ]
    · have h0 := hfail 0 (by omega)
      have h1 := hfail 1 (by omega)
      have h2 := hfail 2 (by omega)
      have h3 := hfail 3 (by omega)
      have h4 := hfail 4 (by omega)
      have h5 := hfail 5 (by omega)
      simp [http_get, httpGetAux, h0, h1, h2, h3, h4, h5, hsucc, List.range_succ]

/-- C3 witness: all attempts failing exits with error 384 after the sleeps
3,6,12,24,48,96,192; succeeding on the third attempt returns the body. -/
theorem C3_backoff_witness :
    (http_get attFailW = ([3, 6, 12, 24, 48, 96, 192], Except.error 384) ∧ 256 ≤ 384) ∧
      http_get attOkW = ((List.range 2).map fun j => 3 * 2 ^ j, Except.ok "ok".toList) := by
  refine ⟨(C3_backoff attFailW [] 0).1 ?_,
    (C3_backoff attOkW ("ok".toList) 2).2 (by omega) ?_ ?_⟩
  · intro j hj; rfl
  · intro j hj
    interval_cases j <;> rfl
  · rfl

/-- C5: when a listing page comes back empty while the cursor is still
non-negative, the scan loop decrements the cursor by exactly 49 and
refetches; in particular an endpoint that is empty at `before=K` but
non-empty at `before=K-49` yields the non-empty page in one step instead of
ending the walk. -/
theorem C5_cursor_window (listing : Option Int → List PostJ) (K : Int) (fuel : Nat)
    (h1 : listing (some K) = []) (h2 : listing (some (K - 49)) ≠ []) (hK : 0 ≤ K) :
    (∀ (posts : List PostJ) (lastId : Int) (f : Nat), posts = [] → 0 ≤ lastId →
        scanLoop listing (f + 1) posts lastId =
          scanLoop listing f (listing (some (lastId - 49))) (lastId - 49)) ∧
      scanLoop listing (fuel + 2) (listing (some K)) K =
        some (listing (some (K - 49)), K - 49) := by
  constructor
  · intro posts lastId f hp hl
    rw [scanLoop, if_pos ⟨hp, hl⟩]
  · rw [scanLoop, if_pos ⟨h1, hK⟩, scanLoop, if_neg (fun h => h2 h.1)]

/-- C5 witness: a listing empty at cursor 100 and non-empty at cursor 51. -/
theorem C5_cursor_window_witness :
    scanLoop listingC5 2 (listingC5 (some 100)) 100 = some (listingC5 (some 51), 51) := by
  have h := (C5_cursor_window listingC5 100 0 (by decide) (by decide) (by decide)).2
  simpa using h

/-- C9: a topic whose first rendered-body page is empty is skipped (no file
is written for it) and the rendering run continues, unchanged, over the
remaining topics. -/
theorem C9_skip_unrenderable (raw : Int → Option Nat → List Char)
    (meta : Int → TopicMeta) (fuel : Nat) (id : Int) (slug : List Char)
    (rest : List (Int × List Char)) (h : raw id none = []) :
    renderTopics raw meta fuel ((id, slug) :: rest) = renderTopics raw meta fuel rest := by
  simp [renderTopics, h]

/-- C9 witness: topic 3 is unrenderable, topic 4 still gets processed. -/
theorem C9_skip_witness :
    renderTopics rawC9 metaC9 2 [(3, "s3".toList), (4, "s4".toList)] =
      renderTopics rawC9 metaC9 2 [(4, "s4".toList)] :=
  C9_skip_unrenderable rawC9 metaC9 2 3 ("s3".toList) [(4, "s4".toList)] (by decide)

/-- C10: under every configured base URL the link appended by
`Topic.save_rendered` is built from the hard-coded base and reads
`https://discourse.slicer.org//t/<slug>/<id>`, with the doubled slash. -/
theorem C10_hardcoded_link (_cfgUrl title body slug : List Char) (id : Int) :
    topicUrl slug id =
      "https://discourse.slicer.org//t/".toList ++ slug ++ '/' :: intChars id ∧
      renderedMarkdown title body slug id =
        '#' :: ' ' :: title ++ '\n' :: '\n' :: body ++ '\n' :: '\n' ::
          "[Link to the original post](".toList ++
          ("https://discourse.slicer.org//t/".toList ++ slug ++ '/' :: intChars id) ++
          [')'] := by
  have hlit : ("https://discourse.slicer.org/".toList ++ "/t/".toList : List Char) =
      "https://discourse.slicer.org//t/".toList := by decide
  have hfirst : topicUrl slug id =
      "https://discourse.slicer.org//t/".toList ++ slug ++ '/' :: intChars id := by
    simp only [topicUrl]
    rw [hlit]
  refine ⟨hfirst, ?_⟩
  simp only [renderedMarkdown]
  rw [hfirst]

theorem processPosts_spec (cutoff : Option Int) :
    ∀ (page : List PostJ) (st : ArchSt),
      (processPosts cutoff page st).1.fetched = st.fetched ∧
      (∃ sext, (processPosts cutoff page st).1.saved = st.saved ++ sext ∧
        ∀ q ∈ sext, noNewCheck cutoff q = false) ∧
      (∀ v, st.maxCreated = some v → (processPosts cutoff page st).1.maxCreated = some v) ∧
      (st.maxCreated = none →
        ((processPosts cutoff page st).1 = st ∧
          ((processPosts cutoff page st).2 = true ∨ page = [])) ∨
        (∃ q qs rest, page = q :: qs ∧ noNewCheck cutoff q = false ∧
          (processPosts cutoff page st).1.maxCreated = some q.created ∧
          (processPosts cutoff page st).1.saved = st.saved ++ q :: rest)) := by
  intro page
  induction page with
  | nil =>
    intro st
    exact ⟨rfl, ⟨[], by simp [processPosts], by simp⟩, fun v hv => hv,
      fun _ => Or.inl ⟨rfl, Or.inr rfl⟩⟩
  | cons p rest ih =>
    intro st
    by_cases hno : noNewCheck cutoff p = true
    · have hpeq : processPosts cutoff (p :: rest) st = (st, true) := by
        simp [processPosts, hno]
      rw [hpeq]
      exact ⟨rfl, ⟨[], by simp, by simp⟩, fun v hv => hv, fun _ => Or.inl ⟨rfl, Or.inl rfl⟩⟩
    · have hno' : noNewCheck cutoff p = false := by
        revert hno; cases noNewCheck cutoff p <;> simp
      have hpeq : processPosts cutoff (p :: rest) st =
          processPosts cutoff rest (savePost p st) := by
        simp [processPosts, hno']
      rw [hpeq]
      obtain ⟨ihf, ⟨sext, ihs, ihsc⟩, ihp, ihn⟩ := ih (savePost p st)
      have hsf : (savePost p st).fetched = st.fetched := rfl
      have hss : (savePost p st).saved = st.saved ++ [p] := rfl
      refine ⟨by rw [ihf, hsf], ⟨p :: sext, ?_, ?_⟩, ?_, ?_⟩
      · rw [ihs, hss, List.append_assoc]
        rfl
      · intro q hq
        rcases List.mem_cons.1 hq with rfl | hq
        · exact hno'
        · exact ihsc q hq
      · intro v hv
        apply ihp
        simp [savePost, hv]
      · intro hmc
        right
        have hmax : (savePost p st).maxCreated = some p.created := by
          simp [savePost, hmc]
        refine ⟨p, rest, sext, rfl, hno', ihp p.created hmax, ?_⟩
        rw [ihs, hss, List.append_assoc]
        rfl

theorem archiveLoop_spec (listing : Option Int → List PostJ) (cutoff : Option Int) :
    ∀ (fuel : Nat) (posts : List PostJ) (st st' : ArchSt),
      archiveLoop listing cutoff fuel posts st = some st' →
      ((posts = [] ∧ st' = st) ∨ ∃ ext, st'.fetched = st.fetched ++ posts ++ ext) ∧
      (∃ sext, st'.saved = st.saved ++ sext ∧ ∀ q ∈ sext, noNewCheck cutoff q = false) ∧
      (∀ v, st.maxCreated = some v → st'.maxCreated = some v) ∧
      (st.maxCreated = none →
        (st'.maxCreated = none ∧ st'.saved = st.saved) ∨
        (∃ q qs rest, posts = q :: qs ∧ noNewCheck cutoff q = false ∧
          st'.maxCreated = some q.created ∧ st'.saved = st.saved ++ q :: rest)) := by
  intro fuel
  induction fuel with
  | zero =>
    intro posts st st' h
    exact absurd h (by simp [archiveLoop])
  | succ f ih =>
    intro posts st st' h
    cases posts with
    | nil =>
      simp [archiveLoop] at h
      subst h
      refine ⟨Or.inl ⟨rfl, rfl⟩, ⟨[], by simp, ?_⟩, fun v hv => hv,
        fun hmc => Or.inl ⟨hmc, rfl⟩⟩
      intro q hq
      simp at hq
    | cons p ps =>
      simp only [archiveLoop] at h
      rw [if_neg (show ¬(p :: ps = []) by simp)] at h
      obtain ⟨hf1, ⟨sext1, hs1, hsc1⟩, hpres1, hnone1⟩ :=
        processPosts_spec cutoff (p :: ps) { st with fetched := st.fetched ++ p :: ps }
      have hps : ({ st with fetched := st.fetched ++ p :: ps } : ArchSt).saved = st.saved := rfl
      have hpm : ({ st with fetched := st.fetched ++ p :: ps } : ArchSt).maxCreated =
          st.maxCreated := rfl
      have hpf : ({ st with fetched := st.fetched ++ p :: ps } : ArchSt).fetched =
          st.fetched ++ p :: ps := rfl
      rw [hps] at hs1
      rw [hpm] at hpres1
      rw [hpm, hps] at hnone1
      rw [hpf] at hf1
      split at h
      · rename_i hflag
        have hst : st' = (processPosts cutoff (p :: ps)
            { st with fetched := st.fetched ++ p :: ps }).1 := by
          injection h with h2
          exact h2.symm
        subst hst
        refine ⟨Or.inr ⟨[], by rw [hf1]; simp⟩, ⟨sext1, hs1, hsc1⟩, hpres1, ?_⟩
        intro hmc
        rcases hnone1 hmc with ⟨heq, -⟩ | ⟨q, qs, rest, hpage, hqno, hqmax, hqsave⟩
        · left
          constructor
          · rw [heq]
            exact hmc
          · rw [heq]
        · exact Or.inr ⟨q, qs, rest, hpage, hqno, hqmax, hqsave⟩
      · rename_i hflag
        split at h
        · exact absurd h (by simp)
        · rename_i l hlast
          split at h
          · exact absurd h (by simp)
          · rename_i posts2 l2 hscan
            obtain ⟨ih1, ⟨sext2, ihs2, ihsc2⟩, ihp2, ihn2⟩ :=
              ih posts2 { (processPosts cutoff (p :: ps)
                { st with fetched := st.fetched ++ p :: ps }).1 with lastId := some l2 } st' h
            have h2f : ({ (processPosts cutoff (p :: ps)
                { st with fetched := st.fetched ++ p :: ps }).1 with
                  lastId := some l2 } : ArchSt).fetched = st.fetched ++ p :: ps := hf1
            have h2s : ({ (processPosts cutoff (p :: ps)
                { st with fetched := st.fetched ++ p :: ps }).1 with
                  lastId := some l2 } : ArchSt).saved = st.saved ++ sext1 := hs1
            have h2m : ({ (processPosts cutoff (p :: ps)
                { st with fetched := st.fetched ++ p :: ps }).1 with
                  lastId := some l2 } : ArchSt).maxCreated =
                (processPosts cutoff (p :: ps)
                  { st with fetched := st.fetched ++ p :: ps }).1.maxCreated := rfl
            refine ⟨?_, ⟨sext1 ++ sext2, ?_, ?_⟩, ?_, ?_⟩
            · rcases ih1 with ⟨hp2e, hst'⟩ | ⟨ext, hext⟩
              · refine Or.inr ⟨[], ?_⟩
                rw [hst', h2f]
                simp
              · refine Or.inr ⟨posts2 ++ ext, ?_⟩
                rw [hext, h2f]
                simp
            · rw [ihs2, h2s, List.append_assoc]
            · intro q hq
              rcases List.mem_append.1 hq with hq | hq
              · exact hsc1 q hq
              · exact ihsc2 q hq
            · intro v hv
              exact ihp2 v (by rw [h2m]; exact hpres1 v hv)
            · intro hmc
              rcases hnone1 hmc with ⟨-, hfl | hpe⟩ | ⟨q, qs, rest, hpage, hqno, hqmax, hqsave⟩
              · rw [hfl] at hflag
                simp at hflag
              · exact absurd hpe (by simp)
              · refine Or.inr ⟨q, qs, rest ++ sext2, hpage, hqno, ?_, ?_⟩
                · exact ihp2 q.created (by rw [h2m]; exact hqmax)
                · have h2s2 : ({ (processPosts cutoff (p :: ps)
                      { st with fetched := st.fetched ++ p :: ps }).1 with
                        lastId := some l2 } : ArchSt).saved = st.saved ++ q :: rest := hqsave
                  rw [ihs2, h2s2, List.append_assoc]
                  rfl

/-- C1: for a completed run whose fetched listing is in descending creation
order (the order `/posts.json` serves), if at least one post was saved the
checkpoint written to `.metadata.json` equals the maximum creation
timestamp among all posts fetched in the run; if nothing was fetched the
metadata file is left unchanged. -/
theorem C1_checkpoint_is_max (listing : Option Int → List PostJ) (cp : Option Int)
    (fuel : Nat) (st : ArchSt)
    (hrun : archiveMain listing cp fuel = some st)
    (hsort : st.fetched.Pairwise fun a b => b.created ≤ a.created) :
    (st.saved ≠ [] → ∃ m, writtenCheckpoint st = some m ∧
      m ∈ st.fetched.map PostJ.created ∧ ∀ p ∈ st.fetched, p.created ≤ m) ∧
    (st.fetched = [] → writtenCheckpoint st = none) := by
  have hrun' : archiveLoop listing (cp.map fun c => c - 86400) fuel (listing none)
      { maxCreated := none, lastId := none, saved := [], fetched := [], topics := [] } =
      some st := by
    simpa [archiveMain] using hrun
  obtain ⟨hfetch, ⟨sext, hsaved, -⟩, -, hnone⟩ :=
    archiveLoop_spec listing (cp.map fun c => c - 86400) fuel (listing none) _ st hrun'
  constructor
  · intro hsne
    rcases hnone rfl with ⟨-, hs⟩ | ⟨q, qs, rest, hposts, -, hmax, hsave⟩
    · exact absurd hs hsne
    · rcases hfetch with ⟨hpe, hst⟩ | ⟨ext, hf⟩
      · have : st.saved = [] := by rw [hst]
        exact absurd this hsne
      · refine ⟨q.created, hmax, ?_, ?_⟩
        · rw [hf, hposts]
          simp
        · intro r hr
          rw [hf, hposts] at hsort hr
          simp only [List.nil_append] at hsort hr
          simp at hsort hr
          rcases hr with rfl | hr
          · exact le_refl _
          · exact hsort.1 r hr
  · intro hfe
    rcases hnone rfl with ⟨hm, -⟩ | ⟨q, qs, rest, hposts, -, hmax, -⟩
    · exact hm
    · rcases hfetch with ⟨hpe, -⟩ | ⟨ext, hf⟩
      · rw [hpe] at hposts
        exact absurd hposts (by simp)
      · rw [hf, hposts] at hfe
        simp at hfe

/-- C4 (amended): a completed run starting from checkpoint `C` only writes
a checkpoint when at least one post was saved, and the written value is at
least `C` minus the one-day resume margin (it can regress inside that
margin, see the counterexample); a run that saved nothing leaves the file
unchanged. -/
theorem C4_checkpoint_bounded (listing : Option Int → List PostJ) (C : Int)
    (fuel : Nat) (st : ArchSt)
    (hrun : archiveMain listing (some C) fuel = some st) :
    (∀ m, writtenCheckpoint st = some m → C - 86400 ≤ m ∧ st.saved ≠ []) ∧
      (st.saved = [] → writtenCheckpoint st = none) := by
  have hrun' : archiveLoop listing (some (C - 86400)) fuel (listing none)
      { maxCreated := none, lastId := none, saved := [], fetched := [], topics := [] } =
      some st := by
    simpa [archiveMain] using hrun
  obtain ⟨-, -, -, hnone⟩ :=
    archiveLoop_spec listing (some (C - 86400)) fuel (listing none) _ st hrun'
  constructor
  · intro m hm
    have hm' : st.maxCreated = some m := hm
    rcases hnone rfl with ⟨hmn, -⟩ | ⟨q, qs, rest, -, hqno, hmax, hsave⟩
    · rw [hmn] at hm'
      cases hm'
    · rw [hmax] at hm'
      have hqm : q.created = m := by injection hm'
      have hq : ¬ (q.created < C - 86400) := by
        simpa [noNewCheck] using hqno
      constructor
      · omega
      · rw [hsave]
        simp
  · intro hs
    rcases hnone rfl with ⟨hmn, -⟩ | ⟨q, qs, rest, -, -, -, hsave⟩
    · exact hmn
    · rw [hs] at hsave
      simp at hsave

/-- C4: the monotonicity claim fails as stated: with stored checkpoint
1000000 and a listing whose newest remaining post was created at 999999
(inside the one-day resume margin), the run rewrites the checkpoint to
999999, strictly below the previous value. -/
theorem C4_counterexample :
    archiveMain listingC4 (some 1000000) 4 = some stC4 ∧
      writtenCheckpoint stC4 = some 999999 ∧ ¬ ((1000000 : Int) ≤ 999999) := by
  refine ⟨by decide, rfl, by norm_num⟩

/-- C4 witness: the regressing run still respects the one-day lower bound
and saved a post. -/
theorem C4_checkpoint_bounded_witness :
    (1000000 : Int) - 86400 ≤ 999999 ∧ stC4.saved ≠ [] :=
  (C4_checkpoint_bounded listingC4 1000000 4 stC4 (by decide)).1 999999 (by decide)

/-- C1 witness: a two-post descending listing with no prior checkpoint. -/
theorem C1_checkpoint_is_max_witness :
    ∃ m, writtenCheckpoint stW = some m ∧ m ∈ stW.fetched.map PostJ.created ∧
      ∀ p ∈ stW.fetched, p.created ≤ m :=
  (C1_checkpoint_is_max listingW none 5 stW (by decide) (by decide)).1 (by decide)

theorem renderedIds_append (a b : List (List Char)) :
    renderedIds (a ++ b) = renderedIds a ++ renderedIds b := by
  simp [renderedIds, List.filterMap_append]

theorem mem_dedupPairs (l : List (Int × List Char)) (p : Int × List Char) :
    p ∈ dedupPairs l ↔ p ∈ l := by
  induction l with
  | nil => simp [dedupPairs]
  | cons q rest ih =>
    by_cases hq : q ∈ rest
    · rw [dedupPairs, if_pos hq]
      constructor
      · intro h
        exact List.mem_cons_of_mem q (ih.1 h)
      · intro h
        rcases List.mem_cons.1 h with rfl | h
        · exact ih.2 hq
        · exact ih.2 h
    · rw [dedupPairs, if_neg hq]
      simp [List.mem_cons, ih]

theorem mem_selectTopics (pairs : List (Int × List Char)) (names : List (List Char))
    (p : Int × List Char) :
    p ∈ selectTopics pairs names ↔ p ∈ pairs ∧ p.1 ∉ renderedIds names := by
  simp [selectTopics, List.mem_filter, mem_dedupPairs]

theorem runReconciler_checkpoint (env : ReconEnv) (fuel : Nat)
    (files : List (List Char)) (cp : Option Int)
    (h : runReconciler env fuel = some (files, cp)) : cp = env.checkpoint := by
  rw [runReconciler] at h
  cases hr : renderTopics env.raw env.meta fuel
      (selectTopics env.npyPairs env.renderedNames) with
  | none =>
    rw [hr] at h
    simp at h
  | some fs =>
    rw [hr] at h
    simp at h
    exact h.2.symm

theorem renderTopics_skip_all (raw : Int → Option Nat → List Char)
    (meta : Int → TopicMeta) (fuel : Nat) :
    ∀ l, (∀ p : Int × List Char, p ∈ l → raw p.1 none = []) →
      renderTopics raw meta fuel l = some [] := by
  intro l
  induction l with
  | nil => intro hskip; rfl
  | cons q rest ih =>
    intro hskip
    obtain ⟨id, slug⟩ := q
    have h1 : raw id none = [] := hskip (id, slug) (by simp)
    rw [renderTopics, if_pos h1]
    exact ih fun p hp => hskip p (List.mem_cons_of_mem _ hp)

theorem renderTopics_written (raw : Int → Option Nat → List Char)
    (meta : Int → TopicMeta) (fuel : Nat) :
    ∀ (l : List (Int × List Char)) (files : List (List Char)),
      renderTopics raw meta fuel l = some files →
      ∀ (id : Int) (slug : List Char), (id, slug) ∈ l → raw id none ≠ [] →
        renderedFileName (meta id).dateStr (meta id).slug (meta id).id ∈ files := by
  intro l
  induction l with
  | nil =>
    intro files h id slug hmem
    simp at hmem
  | cons q rest ih =>
    intro files h id slug hmem hne
    obtain ⟨qid, qslug⟩ := q
    by_cases hq : raw qid none = []
    · rw [renderTopics, if_pos hq] at h
      rcases List.mem_cons.1 hmem with heq | hmem2
      · have hid : id = qid := (Prod.ext_iff.1 heq).1
        rw [hid] at hne
        exact absurd hq hne
      · exact ih files h id slug hmem2 hne
    · rw [renderTopics, if_neg hq] at h
      cases hloop : rawPageLoop (raw qid) fuel (raw qid none) with
      | none =>
        rw [hloop] at h
        simp at h
      | some fullBody =>
        rw [hloop] at h
        cases hrest : renderTopics raw meta fuel rest with
        | none =>
          rw [hrest] at h
          simp at h
        | some files2 =>
          rw [hrest] at h
          simp at h
          rcases List.mem_cons.1 hmem with heq | hmem2
          · have hid : id = qid := (Prod.ext_iff.1 heq).1
            rw [← h, hid]
            exact List.mem_cons_self _ _
          · rw [← h]
            exact List.mem_cons_of_mem _ (ih files2 hrest id slug hmem2 hne)

/-- C6: the Reconciler does not recover its topic set from the raw post
files: `collect_ids` is never invoked (its call is commented out) and the
pairs come from the `topics_array.npy` snapshot.  With an empty snapshot
and a posts directory mentioning topic 7, the code renders nothing, while
the claimed post-file scan would select topic 7. -/
theorem C6_counterexample :
    runReconciler envC6x 3 = some ([], none) ∧
      selectTopics (collect_ids envC6x.postFiles) envC6x.renderedNames =
        [(7, "s".toList)] ∧
      ([(7, "s".toList)] : List (Int × List Char)) ≠ [] := by
  refine ⟨by decide, by decide, by decide⟩

/-- C6 (amended): the Reconciler selects exactly the deduplicated npy
pairs whose ids do not parse out of an existing rendered file name, leaves
the checkpoint untouched, and a second run over the archive extended by the
first run's output renders zero additional topics (for well-behaved topic
metadata). -/
theorem C6_reconciler (env : ReconEnv) (fuel : Nat) :
    (∀ p : Int × List Char, p ∈ selectTopics env.npyPairs env.renderedNames ↔
        p ∈ env.npyPairs ∧ p.1 ∉ renderedIds env.renderedNames) ∧
    (∀ files cp, runReconciler env fuel = some (files, cp) → cp = env.checkpoint) ∧
    (∀ files, (∀ p ∈ selectTopics env.npyPairs env.renderedNames, goodMeta env.meta p.1) →
      renderTopics env.raw env.meta fuel (selectTopics env.npyPairs env.renderedNames) =
        some files →
      renderTopics env.raw env.meta fuel
        (selectTopics env.npyPairs (env.renderedNames ++ files)) = some []) := by
  refine ⟨mem_selectTopics env.npyPairs env.renderedNames, ?_, ?_⟩
  · intro files cp h
    exact runReconciler_checkpoint env fuel files cp h
  · intro files hgood hrun
    apply renderTopics_skip_all
    intro p hp2
    obtain ⟨hpin, hpnot⟩ := (mem_selectTopics _ _ p).1 hp2
    rw [renderedIds_append] at hpnot
    have hp1 : p ∈ selectTopics env.npyPairs env.renderedNames :=
      (mem_selectTopics _ _ p).2 ⟨hpin, fun hin => hpnot (List.mem_append.2 (Or.inl hin))⟩
    by_contra hne
    obtain ⟨hid, h0, hlt, hd10, hdnd, hsnd⟩ := hgood p hp1
    have hmem := renderTopics_written env.raw env.meta fuel _ files hrun p.1 p.2
      (by simpa using hp1) hne
    rw [hid] at hmem
    obtain ⟨hsearch, hmd⟩ :=
      parse_renderedFileName (env.meta p.1).dateStr (env.meta p.1).slug p.1 hd10 hdnd hsnd h0 hlt
    obtain ⟨-, -, -, hval⟩ := idstr_spec p.1 h0 hlt
    apply hpnot
    apply List.mem_append.2
    right
    apply List.mem_filterMap.2
    refine ⟨renderedFileName (env.meta p.1).dateStr (env.meta p.1).slug p.1, hmem, ?_⟩
    simp [hmd, hsearch, hval]

/-- C6 witness: one pending topic in the snapshot; after the first run has
written its file, the second run renders nothing and the checkpoint is
untouched. -/
theorem C6_reconciler_witness :
    renderTopics envC6w.raw envC6w.meta 3
        (selectTopics envC6w.npyPairs (envC6w.renderedNames ++ filesC6)) = some [] ∧
      some (5 : Int) = envC6w.checkpoint := by
  constructor
  · apply (C6_reconciler envC6w 3).2.2 filesC6
    · intro p hp
      have hsel : selectTopics envC6w.npyPairs envC6w.renderedNames = [(7, "s".toList)] := by
        decide
      rw [hsel] at hp
      have hp7 : p = (7, "s".toList) := by simpa using hp
      subst hp7
      exact ⟨by decide, by decide, by decide, by decide,
        noDot_of_not_mem (by decide), noDot_of_not_mem (by decide)⟩
    · decide
  · exact (C6_reconciler envC6w 3).2.1 filesC6 (some 5) (by decide)
